import Mathlib

/-!
Verification of two components of this repository, shallow-embedded in Lean:

* `aten/src/ATen/native/quantized/cpu/qelu.cpp` — the quantized ELU dispatch
  layer (`quantized_elu_out`, `quantized_elu_`, `quantized_elu`), modelled as
  explicit state passing over a heap of quantized tensors, with the
  device-resolved kernel (`qelu_stub`) as an opaque parameter and an event
  trace recording each allocation, stub invocation and copy.

* `aten/src/ATen/native/mps/UnaryConstants.h` — the `ErfinvConstant`
  coefficient table and the generated Metal kernel `erfinv_mps_kernel`
  (with its helper `evaluate_polynomial`), modelled over exact rationals.
  `sqrt` and `log` are opaque function parameters; finite float inputs are
  modelled as a sign bit plus a non-negative magnitude (so `-0.0` is
  representable) and outputs as a value type with NaN, signed infinity,
  signed zero and finite numeric values.  Coefficient-array indexing is
  modelled fallibly (`Option`), so out-of-bounds access is observable.
-/

/- ### Quantized ELU dispatch model (qelu.cpp) -/

/-- A quantized tensor: shape, (opaque) tensor options, device tag,
quantization scale and zero point, and the raw data buffer. -/
structure QTensor where
  sizes : List ℕ
  options : ℕ
  device : ℕ
  q_scale : ℚ
  q_zero_point : ℤ
  data : List ℤ
  deriving DecidableEq

instance : Inhabited QTensor := ⟨⟨[], 0, 0, 0, 0, []⟩⟩

/-- The heap of live tensors; a tensor handle is an index into this list. -/
abbrev Heap := List QTensor

/-- Observable events of a dispatch-layer call, in program order. -/
inductive QEvent where
  /-- a fresh quantized tensor was allocated at this handle -/
  | allocEvent (id : ℕ)
  /-- `qelu_stub(device, self, alpha, result)` was invoked -/
  | stubEvent (device : ℕ) (selfId : ℕ) (alpha : ℚ) (resultId : ℕ)
  /-- `dst.copy_(src)` was invoked -/
  | copyEvent (dstId srcId : ℕ)
  deriving DecidableEq

/-- The device-resolved numeric kernel behind `qelu_stub`: given the input
tensor and `alpha`, the data it writes into the buffer of the output tensor.
This is the opaque collaborator selected by device type. -/
def QKernel : Type := QTensor → ℚ → List ℤ

/-- `qelu_stub(device, self, alpha, result)`: the kernel reads `self` and
`alpha` and overwrites the buffer of `result`; the metadata of `result` is kept. -/
def qelu_stub (k : QKernel) (h : Heap) (selfId : ℕ) (alpha : ℚ)
    (resultId : ℕ) : Heap :=
  let s := h.getD selfId default
  let r := h.getD resultId default
  h.set resultId { r with data := k s alpha }

/-- `at::_empty_affine_quantized(sizes, options, scale, zero_point)`:
allocate a fresh quantized tensor with the given metadata and an
uninitialized (here: empty) buffer; returns the new heap and handle. -/
def _empty_affine_quantized (h : Heap) (sizes : List ℕ) (options device : ℕ)
    (scale : ℚ) (zero_point : ℤ) : Heap × ℕ :=
  (h ++ [{ sizes := sizes, options := options, device := device,
           q_scale := scale, q_zero_point := zero_point, data := [] }],
   h.length)

/-- The copy step `dst.copy_(src)`: copy the buffer contents of `src` into the storage of `dst`. -/
def copy_into (h : Heap) (dstId srcId : ℕ) : Heap :=
  let d := h.getD dstId default
  let s := h.getD srcId default
  h.set dstId { d with data := s.data }

/-- `quantized_elu_out(result, self, alpha, scale, input_scale)`:
`qelu_stub(self.device().type(), self, alpha, result); return result;` -/
def quantized_elu_out (k : QKernel) (h : Heap) (resultId selfId : ℕ)
    (alpha scale input_scale : ℚ) : Heap × ℕ × List QEvent :=
  let s := h.getD selfId default
  (qelu_stub k h selfId alpha resultId, resultId,
   [.stubEvent s.device selfId alpha resultId])

/-- `quantized_elu_(self, alpha, scale, input_scale)`: allocate a temporary
`qy` carrying the sizes/options/scale/zero-point of `self`, run the stub into `qy`,
then `self.copy_(qy)` and return `self`. -/
def quantized_elu_ (k : QKernel) (h : Heap) (selfId : ℕ)
    (alpha scale input_scale : ℚ) : Heap × ℕ × List QEvent :=
  let s := h.getD selfId default
  let alloc := _empty_affine_quantized h s.sizes s.options s.device
      s.q_scale s.q_zero_point
  let h2 := qelu_stub k alloc.1 selfId alpha alloc.2
  let h3 := copy_into h2 selfId alloc.2
  (h3, selfId,
   [.allocEvent alloc.2, .stubEvent s.device selfId alpha alloc.2,
    .copyEvent selfId alloc.2])

/-- `quantized_elu(qx, alpha, scale, input_scale)`: allocate a fresh `qy`
carrying the sizes/options/scale/zero-point of `qx`, run the stub into `qy` and
return it. -/
def quantized_elu (k : QKernel) (h : Heap) (qxId : ℕ)
    (alpha scale input_scale : ℚ) : Heap × ℕ × List QEvent :=
  let qx := h.getD qxId default
  let alloc := _empty_affine_quantized h qx.sizes qx.options qx.device
      qx.q_scale qx.q_zero_point
  let h2 := qelu_stub k alloc.1 qxId alpha alloc.2
  (h2, alloc.2,
   [.allocEvent alloc.2, .stubEvent qx.device qxId alpha alloc.2])

/- ### erfinv kernel model (UnaryConstants.h) -/

/-- The `ErfinvConstant` uniform table: `float Y[7]`, `float P[7][11]`,
`float Q[7][11]`, modelled with rows as lists (each row of the concrete
table below has exactly 11 entries). -/
structure ErfinvConstant where
  Y : List ℚ
  P : List (List ℚ)
  Q : List (List ℚ)

/-- The concrete coefficient table of `struct ErfinvConstant`
(Boost-derived constants), transcribed with its decimal literals read as
exact rationals. -/
def erfinvTable : ErfinvConstant where
  Y := [0.0891314744949340820313,
        2.249481201171875,
        0.807220458984375,
        0.93995571136474609375,
        0.98362827301025390625,
        0.99714565277099609375,
        0.99941349029541015625]
  P := [[-0.000508781949658280665617,
         -0.00836874819741736770379,
         0.0334806625409744615033,
         -0.0126926147662974029034,
         -0.0365637971411762664006,
         0.0219878681111168899165,
         0.00822687874676915743155,
         -0.00538772965071242932965,
         0, 0, 0],
        [-0.202433508355938759655,
         0.105264680699391713268,
         8.37050328343119927838,
         17.6447298408374015486,
         -18.8510648058714251895,
         -44.6382324441786960818,
         17.445385985570866523,
         21.1294655448340526258,
         -3.67192254707729348546,
         0, 0],
        [-0.131102781679951906451,
         -0.163794047193317060787,
         0.117030156341995252019,
         0.387079738972604337464,
         0.337785538912035898924,
         0.142869534408157156766,
         0.0290157910005329060432,
         0.00214558995388805277169,
         -0.679465575181126350155e-6,
         0.285225331782217055858e-7,
         -0.681149956853776992068e-9],
        [-0.0350353787183177984712,
         -0.00222426529213447927281,
         0.0185573306514231072324,
         0.00950804701325919603619,
         0.00187123492819559223345,
         0.000157544617424960554631,
         0.460469890584317994083e-5,
         -0.230404776911882601748e-9,
         0.266339227425782031962e-11,
         0, 0],
        [-0.0167431005076633737133,
         -0.00112951438745580278863,
         0.00105628862152492910091,
         0.000209386317487588078668,
         0.149624783758342370182e-4,
         0.449696789927706453732e-6,
         0.462596163522878599135e-8,
         -0.281128735628831791805e-13,
         0.99055709973310326855e-16,
         0, 0],
        [-0.0024978212791898131227,
         -0.779190719229053954292e-5,
         0.254723037413027451751e-4,
         0.162397777342510920873e-5,
         0.396341011304801168516e-7,
         0.411632831190944208473e-9,
         0.145596286718675035587e-11,
         -0.116765012397184275695e-17,
         0, 0, 0],
        [-0.000539042911019078575891,
         -0.28398759004727721098e-6,
         0.899465114892291446442e-6,
         0.229345859265920864296e-7,
         0.225561444863500149219e-9,
         0.947846627503022684216e-12,
         0.135880130108924861008e-14,
         -0.348890393399948882918e-21,
         0, 0, 0]]
  Q := [[1.0,
         -0.970005043303290640362,
         -1.56574558234175846809,
         1.56221558398423026363,
         0.662328840472002992063,
         -0.71228902341542847553,
         -0.0527396382340099713954,
         0.0795283687341571680018,
         -0.00233393759374190016776,
         0.000886216390456424707504,
         0],
        [1.0,
         6.24264124854247537712,
         3.9713437953343869095,
         -28.6608180499800029974,
         -20.1432634680485188801,
         48.5609213108739935468,
         10.8268667355460159008,
         -22.6436933413139721736,
         1.72114765761200282724,
         0, 0],
        [1.0,
         3.46625407242567245975,
         5.38168345707006855425,
         4.77846592945843778382,
         2.59301921623620271374,
         0.848854343457902036425,
         0.152264338295331783612,
         0.01105924229346489121,
         0, 0, 0],
        [1.0,
         1.3653349817554063097,
         0.762059164553623404043,
         0.220091105764131249824,
         0.0341589143670947727934,
         0.00263861676657015992959,
         0.764675292302794483503e-4,
         0, 0, 0, 0],
        [1.0,
         0.591429344886417493481,
         0.138151865749083321638,
         0.0160746087093676504695,
         0.000964011807005165528527,
         0.275335474764726041141e-4,
         0.282243172016108031869e-6,
         0, 0, 0, 0],
        [1.0,
         0.207123112214422517181,
         0.0169410838120975906478,
         0.000690538265622684595676,
         0.145007359818232637924e-4,
         0.144437756628144157666e-6,
         0.509761276599778486139e-9,
         0, 0, 0, 0],
        [1.0,
         0.0845746234001899436914,
         0.00282092984726264681981,
         0.468292921940894236786e-4,
         0.399968812193862100054e-6,
         0.161809290887904476097e-8,
         0.231558608310259605225e-11,
         0, 0, 0, 0]]

/-- The descending Horner loop of `evaluate_polynomial`: with fuel `i + 1`,
process coefficient indices `i, i-1, ..., 0`; an index outside the array is
an out-of-bounds access, reported as `none`. -/
def hornerDown (c : List ℚ) (x : ℚ) : ℕ → ℚ → Option ℚ
  | 0, acc => some acc
  | i + 1, acc =>
    match c.get? i with
    | none => none
    | some ci => hornerDown c x i (acc * x + ci)

/-- `evaluate_polynomial(coefficients, x, count)` from the generated kernel:
seed the accumulator with `coefficients[count - 1]`, then loop
`i = count - 2` down to `0` taking `result = result * x + coefficients[i]`.
A read outside the coefficient array (in particular `count == 0`, which
reads index `-1`) is reported as `none`. -/
def evaluate_polynomial (c : List ℚ) (x : ℚ) (count : ℕ) : Option ℚ :=
  if count = 0 then none
  else
    match c.get? (count - 1) with
    | none => none
    | some seed => hornerDown c x (count - 1) seed

/-- The Horner reference definition from the spec: given `c[0..n-1]` (constant term first),
compute `((...(c[n-1]*x + c[n-2])*x + ...)*x + c[0])`, iterating from the
highest index down to 0 with the accumulator seeded by the highest-degree
coefficient. -/
def hornerSpec (c : List ℚ) (x : ℚ) (n : ℕ) : ℚ :=
  match (c.take n).reverse with
  | [] => 0
  | seed :: rest => rest.foldl (fun acc ci => acc * x + ci) seed

/-- A finite float scalar, as a sign bit plus non-negative magnitude
(`⟨true, 0⟩` is `-0.0`). -/
structure F where
  neg : Bool
  mag : ℚ

/-- The rational value of a finite float scalar (the sign bit of a zero is
invisible here, as for float comparisons). -/
def fval (y : F) : ℚ := if y.neg then -y.mag else y.mag

/-- A float result: NaN, signed infinity, signed zero, or an ordinary
finite value. -/
inductive FV where
  | nan
  | inf (neg : Bool)
  | zero (neg : Bool)
  | num (x : ℚ)
  deriving DecidableEq

/-- Negation of a finite float: flip the sign bit. -/
def negF (y : F) : F := ⟨!y.neg, y.mag⟩

/-- Negation of a float result. -/
def negFV : FV → FV
  | .nan => .nan
  | .inf b => .inf !b
  | .zero b => .zero !b
  | .num x => .num (-x)

/-- Is this result a zero value (either signed zero or the number 0)? -/
def FV.isZeroVal : FV → Prop
  | .zero _ => True
  | .num x => x = 0
  | _ => False

/-- Is this result finite (neither NaN nor an infinity)? -/
def FV.isFiniteVal : FV → Prop
  | .nan => False
  | .inf _ => False
  | _ => True

/-- The region dispatch of `erfinv_mps_kernel` for `0 < p < 1`, `q = 1 - p`:
the value `result` before the final sign multiplication.  `sq` and `lg`
stand for the `sqrt` and `log` of the device. -/
def erfinvRegions (sq lg : ℚ → ℚ) (tbl : ErfinvConstant) (p q : ℚ) :
    Option ℚ := do
  if p ≤ 0.5 then
    let Y := tbl.Y.getD 0 0
    let g := p * (p + 10)
    let pn ← evaluate_polynomial (tbl.P.getD 0 []) p 8
    let qn ← evaluate_polynomial (tbl.Q.getD 0 []) p 10
    let r := pn / qn
    return g * Y + g * r
  else if 0.25 ≤ q then
    let Y := tbl.Y.getD 1 0
    let g := sq (-2 * lg q)
    let xs := q - 0.25
    let pn ← evaluate_polynomial (tbl.P.getD 1 []) xs 9
    let qn ← evaluate_polynomial (tbl.Q.getD 1 []) xs 9
    let r := pn / qn
    return g / (Y + r)
  else
    let x := sq (-lg q)
    if x < 3 then
      let Y := tbl.Y.getD 2 0
      let xs := x - 1.125
      let pn ← evaluate_polynomial (tbl.P.getD 2 []) xs 11
      let qn ← evaluate_polynomial (tbl.Q.getD 2 []) xs 8
      let R := pn / qn
      return Y * x + R * x
    else if x < 6 then
      let Y := tbl.Y.getD 3 0
      let xs := x - 3
      let pn ← evaluate_polynomial (tbl.P.getD 3 []) xs 9
      let qn ← evaluate_polynomial (tbl.Q.getD 3 []) xs 7
      let R := pn / qn
      return Y * x + R * x
    else if x < 18 then
      let Y := tbl.Y.getD 4 0
      let xs := x - 6
      let pn ← evaluate_polynomial (tbl.P.getD 4 []) xs 9
      let qn ← evaluate_polynomial (tbl.Q.getD 4 []) xs 7
      let R := pn / qn
      return Y * x + R * x
    else if x < 44 then
      let Y := tbl.Y.getD 5 0
      let xs := x - 18
      let pn ← evaluate_polynomial (tbl.P.getD 5 []) xs 8
      let qn ← evaluate_polynomial (tbl.Q.getD 5 []) xs 7
      let R := pn / qn
      return Y * x + R * x
    else
      let Y := tbl.Y.getD 6 0
      let xs := x - 44
      let pn ← evaluate_polynomial (tbl.P.getD 6 []) xs 8
      let qn ← evaluate_polynomial (tbl.Q.getD 6 []) xs 7
      let R := pn / qn
      return Y * x + R * x

/-- `erfinv_mps_kernel` per scalar element, translated line by line from
the generated Metal source: edge handling for `|y| > 1`, `|y| == 1` and
`y == ±0`, then the sign split `p, q, s`, the region dispatch, and the
final `output = s * result`. -/
def erfinv_mps_kernel (sq lg : ℚ → ℚ) (tbl : ErfinvConstant) (y : F) :
    Option FV :=
  let yv := fval y
  let y_abs := |yv|
  if 1 < y_abs then some .nan
  else if y_abs = 1 then some (.inf y.neg)
  else if y_abs = 0 then some (.zero y.neg)
  else
    let p := if yv < 0 then -yv else yv
    let q := 1 - p
    let s : ℚ := if yv < 0 then -1 else 1
    (erfinvRegions sq lg tbl p q).map fun result => .num (s * result)

/-- The region value of the precise scheme as the spec states it (the
factor before the sign `s`), with each ratio written through the Horner
reference `hornerSpec`. -/
def erfinvRegionsRef (sq lg : ℚ → ℚ) (tbl : ErfinvConstant) (p q : ℚ) : ℚ :=
  if p ≤ 0.5 then
    let g := p * (p + 10)
    g * tbl.Y.getD 0 0 +
      g * (hornerSpec (tbl.P.getD 0 []) p 8 / hornerSpec (tbl.Q.getD 0 []) p 10)
  else if 0.25 ≤ q then
    let g := sq (-2 * lg q)
    g / (tbl.Y.getD 1 0 +
      hornerSpec (tbl.P.getD 1 []) (q - 0.25) 9 /
        hornerSpec (tbl.Q.getD 1 []) (q - 0.25) 9)
  else
    let x := sq (-lg q)
    if x < 3 then
      tbl.Y.getD 2 0 * x +
        (hornerSpec (tbl.P.getD 2 []) (x - 1.125) 11 /
          hornerSpec (tbl.Q.getD 2 []) (x - 1.125) 8) * x
    else if x < 6 then
      tbl.Y.getD 3 0 * x +
        (hornerSpec (tbl.P.getD 3 []) (x - 3) 9 /
          hornerSpec (tbl.Q.getD 3 []) (x - 3) 7) * x
    else if x < 18 then
      tbl.Y.getD 4 0 * x +
        (hornerSpec (tbl.P.getD 4 []) (x - 6) 9 /
          hornerSpec (tbl.Q.getD 4 []) (x - 6) 7) * x
    else if x < 44 then
      tbl.Y.getD 5 0 * x +
        (hornerSpec (tbl.P.getD 5 []) (x - 18) 8 /
          hornerSpec (tbl.Q.getD 5 []) (x - 18) 7) * x
    else
      tbl.Y.getD 6 0 * x +
        (hornerSpec (tbl.P.getD 6 []) (x - 44) 8 /
          hornerSpec (tbl.Q.getD 6 []) (x - 44) 7) * x

/-- The piecewise reference definition of the precise scheme, written from
the words of the spec: `p = |y|`, `q = 1 - p`, `s` the sign of `y`; region
0 when `p <= 0.5` with result `s*(g*Y[0] + g*r)`; region 1 when
`q >= 0.25` with result `s*(g/(Y[1] + r))`; otherwise one of 5 sub-regions
chosen by thresholds on `x = sqrt(-ln q)` with result `s*(Y[k]*x + R*x)`. -/
def erfinvRefCompute (sq lg : ℚ → ℚ) (tbl : ErfinvConstant) (y : ℚ) : ℚ :=
  let p := |y|
  let q := 1 - p
  let s : ℚ := if y < 0 then -1 else 1
  if p ≤ 0.5 then
    let g := p * (p + 10)
    let r := hornerSpec (tbl.P.getD 0 []) p 8 / hornerSpec (tbl.Q.getD 0 []) p 10
    s * (g * tbl.Y.getD 0 0 + g * r)
  else if 0.25 ≤ q then
    let g := sq (-2 * lg q)
    let r := hornerSpec (tbl.P.getD 1 []) (q - 0.25) 9 /
      hornerSpec (tbl.Q.getD 1 []) (q - 0.25) 9
    s * (g / (tbl.Y.getD 1 0 + r))
  else
    let x := sq (-lg q)
    if x < 3 then
      s * (tbl.Y.getD 2 0 * x +
        (hornerSpec (tbl.P.getD 2 []) (x - 1.125) 11 /
          hornerSpec (tbl.Q.getD 2 []) (x - 1.125) 8) * x)
    else if x < 6 then
      s * (tbl.Y.getD 3 0 * x +
        (hornerSpec (tbl.P.getD 3 []) (x - 3) 9 /
          hornerSpec (tbl.Q.getD 3 []) (x - 3) 7) * x)
    else if x < 18 then
      s * (tbl.Y.getD 4 0 * x +
        (hornerSpec (tbl.P.getD 4 []) (x - 6) 9 /
          hornerSpec (tbl.Q.getD 4 []) (x - 6) 7) * x)
    else if x < 44 then
      s * (tbl.Y.getD 5 0 * x +
        (hornerSpec (tbl.P.getD 5 []) (x - 18) 8 /
          hornerSpec (tbl.Q.getD 5 []) (x - 18) 7) * x)
    else
      s * (tbl.Y.getD 6 0 * x +
        (hornerSpec (tbl.P.getD 6 []) (x - 44) 8 /
          hornerSpec (tbl.Q.getD 6 []) (x - 44) 7) * x)

/-- `copysign(a, y)` for a finite float `y`: the magnitude of `a` carrying
the sign bit of `y`. -/
def copysignQ (a : ℚ) (y : F) : ℚ := if y.neg then -|a| else |a|

/-- Modelled from the spec: the coefficient table of the fast/simple
4-region scheme (four 4-element arrays `a`, `b`, `c`, `d`), whose concrete
kernel and coefficient values are not part of this source fragment. -/
structure ErfinvSimpleConstant where
  a : Fin 4 → ℚ
  b : Fin 4 → ℚ
  c : Fin 4 → ℚ
  d : Fin 4 → ℚ

/-- Modelled from the spec: the per-element evaluator of the fast/simple
scheme, whose kernel is not part of this source fragment.  Steps 2 and 3
of the spec (NaN outside `[-1,1]`, signed infinity at `|y| == 1`) are
shared with the precise scheme; the signed-zero step 4 is precise-scheme
only.  Two regions split at `y_abs = 0.7`. -/
def erfinv_simple_kernel (sq lg : ℚ → ℚ) (tbl : ErfinvSimpleConstant)
    (y : F) : FV :=
  let yv := fval y
  let y_abs := |yv|
  if 1 < y_abs then .nan
  else if y_abs = 1 then .inf y.neg
  else if y_abs ≤ 0.7 then
    let z := yv * yv
    let num := hornerSpec (List.ofFn tbl.a) z 4
    let den := hornerSpec (List.ofFn tbl.b) z 4 + 1
    .num (yv * num / den)
  else
    let z := sq (-lg ((1 - y_abs) / 2))
    let num := hornerSpec (List.ofFn tbl.c) z 4
    let den := hornerSpec (List.ofFn tbl.d) z 2 + 1
    .num (copysignQ num y / den)

/-- A coefficient row `r` used with count `n` is exactly non-zero-padded:
the row has the full 11 columns, every entry at an index `>= n` is zero,
and the highest evaluated entry `r[n-1]` is non-zero. -/
def rowOk (r : List ℚ) (n : ℕ) : Prop :=
  r.length = 11 ∧ r.drop n = List.replicate (11 - n) 0 ∧ r.getD (n - 1) 0 ≠ 0

/- ### Helper lemmas -/

theorem abs_fval (y : F) (h : 0 ≤ y.mag) : |fval y| = y.mag := by
  rcases y with ⟨n, m⟩
  cases n <;> simp [fval, abs_of_nonneg, h]

theorem fval_negF (y : F) : fval (negF y) = -(fval y) := by
  rcases y with ⟨n, m⟩
  cases n <;> simp [negF, fval]

theorem hornerDown_eq (cs : List ℚ) (x : ℚ) :
    ∀ (i : ℕ) (acc : ℚ), i ≤ cs.length →
      hornerDown cs x i acc =
        some ((cs.take i).reverse.foldl (fun a b => a * x + b) acc) := by
  intro i
  induction i with
  | zero => intro acc _; simp [hornerDown]
  | succ i ih =>
    intro acc h
    have hi : i < cs.length := h
    have hg : cs.get? i = some (cs.get ⟨i, hi⟩) := List.get?_eq_get hi
    have hg2 : cs[i]? = some (cs.get ⟨i, hi⟩) := by
      rw [← List.get?_eq_getElem?]; exact hg
    simp only [hornerDown, hg]
    rw [ih _ (Nat.le_of_lt hi)]
    congr 1
    rw [List.take_succ, hg2]
    simp only [Option.toList_some, List.reverse_append, List.reverse_cons,
      List.reverse_nil, List.nil_append, List.singleton_append, List.foldl_cons]

theorem evalPoly_eq_hornerSpec (cs : List ℚ) (x : ℚ) (n : ℕ)
    (h1 : 1 ≤ n) (h2 : n ≤ cs.length) :
    evaluate_polynomial cs x n = some (hornerSpec cs x n) := by
  obtain ⟨m, rfl⟩ : ∃ m, n = m + 1 :=
    ⟨n - 1, (Nat.succ_pred_eq_of_pos h1).symm⟩
  have hm : m < cs.length := h2
  have hg : cs.get? m = some (cs.get ⟨m, hm⟩) := List.get?_eq_get hm
  have hg2 : cs[m]? = some (cs.get ⟨m, hm⟩) := by
    rw [← List.get?_eq_getElem?]; exact hg
  have hrev : (cs.take (m + 1)).reverse = cs.get ⟨m, hm⟩ :: (cs.take m).reverse := by
    rw [List.take_succ, hg2]
    simp
  simp only [evaluate_polynomial, Nat.succ_ne_zero, if_false, Nat.add_sub_cancel, hg]
  rw [hornerDown_eq cs x m _ (Nat.le_of_lt hm)]
  unfold hornerSpec
  rw [hrev]

theorem evalPoly_isSome_iff (cs : List ℚ) (x : ℚ) (n : ℕ) :
    (evaluate_polynomial cs x n).isSome = true ↔ 1 ≤ n ∧ n ≤ cs.length := by
  constructor
  · intro h
    by_cases h0 : n = 0
    · subst h0; simp [evaluate_polynomial] at h
    · have h1 : 1 ≤ n := Nat.one_le_iff_ne_zero.mpr h0
      refine ⟨h1, ?_⟩
      by_contra hlen
      have hnone : cs.get? (n - 1) = none := List.get?_eq_none.mpr (by omega)
      have hnone2 : cs[n - 1]? = none := by
        rw [← List.get?_eq_getElem?]; exact hnone
      simp [evaluate_polynomial, h0, hnone, hnone2] at h
  · rintro ⟨h1, h2⟩
    rw [evalPoly_eq_hornerSpec cs x n h1 h2]
    rfl

theorem getD_set_self {α : Type} (l : List α) (i : ℕ) (a d : α)
    (hi : i < l.length) : (l.set i a).getD i d = a := by
  rw [List.getD_eq_getD_get?, List.get?_set_eq_of_lt a hi]
  rfl

theorem getD_set_ne {α : Type} (l : List α) (i j : ℕ) (a d : α)
    (hne : i ≠ j) : (l.set i a).getD j d = l.getD j d := by
  rw [List.getD_eq_getD_get?, List.get?_set_ne a l hne,
    ← List.getD_eq_getD_get?]

theorem getD_concat_self {α : Type} (l : List α) (a d : α) :
    (l ++ [a]).getD l.length d = a := by
  rw [List.getD_append_right l [a] d l.length (Nat.le_refl _)]
  simp

theorem erfinvRegions_eq (sq lg : ℚ → ℚ) (tbl : ErfinvConstant)
    (hp7 : tbl.P.length = 7) (hq7 : tbl.Q.length = 7)
    (hpr : ∀ r ∈ tbl.P, r.length = 11) (hqr : ∀ r ∈ tbl.Q, r.length = 11)
    (p q : ℚ) :
    erfinvRegions sq lg tbl p q = some (erfinvRegionsRef sq lg tbl p q) := by
  have hP : ∀ k, k < 7 → (tbl.P.getD k []).length = 11 := by
    intro k hk
    have hk2 : k < tbl.P.length := by omega
    rw [List.getD_eq_get tbl.P [] hk2]
    exact hpr _ (List.get_mem tbl.P k hk2)
  have hQ : ∀ k, k < 7 → (tbl.Q.getD k []).length = 11 := by
    intro k hk
    have hk2 : k < tbl.Q.length := by omega
    rw [List.getD_eq_get tbl.Q [] hk2]
    exact hqr _ (List.get_mem tbl.Q k hk2)
  have eP : ∀ (k n : ℕ) (z : ℚ), k < 7 → 1 ≤ n → n ≤ 11 →
      evaluate_polynomial (tbl.P.getD k []) z n =
        some (hornerSpec (tbl.P.getD k []) z n) := by
    intro k n z hk h1 h2
    exact evalPoly_eq_hornerSpec _ _ _ h1 (by rw [hP k hk]; exact h2)
  have eQ : ∀ (k n : ℕ) (z : ℚ), k < 7 → 1 ≤ n → n ≤ 11 →
      evaluate_polynomial (tbl.Q.getD k []) z n =
        some (hornerSpec (tbl.Q.getD k []) z n) := by
    intro k n z hk h1 h2
    exact evalPoly_eq_hornerSpec _ _ _ h1 (by rw [hQ k hk]; exact h2)
  unfold erfinvRegions erfinvRegionsRef
  dsimp only
  split_ifs
  · rw [eP 0 8 p (by norm_num) (by norm_num) (by norm_num),
      eQ 0 10 p (by norm_num) (by norm_num) (by norm_num)]
    rfl
  · rw [eP 1 9 (q - 0.25) (by norm_num) (by norm_num) (by norm_num),
      eQ 1 9 (q - 0.25) (by norm_num) (by norm_num) (by norm_num)]
    rfl
  · rw [eP 2 11 (sq (-lg q) - 1.125) (by norm_num) (by norm_num) (by norm_num),
      eQ 2 8 (sq (-lg q) - 1.125) (by norm_num) (by norm_num) (by norm_num)]
    rfl
  · rw [eP 3 9 (sq (-lg q) - 3) (by norm_num) (by norm_num) (by norm_num),
      eQ 3 7 (sq (-lg q) - 3) (by norm_num) (by norm_num) (by norm_num)]
    rfl
  · rw [eP 4 9 (sq (-lg q) - 6) (by norm_num) (by norm_num) (by norm_num),
      eQ 4 7 (sq (-lg q) - 6) (by norm_num) (by norm_num) (by norm_num)]
    rfl
  · rw [eP 5 8 (sq (-lg q) - 18) (by norm_num) (by norm_num) (by norm_num),
      eQ 5 7 (sq (-lg q) - 18) (by norm_num) (by norm_num) (by norm_num)]
    rfl
  · rw [eP 6 8 (sq (-lg q) - 44) (by norm_num) (by norm_num) (by norm_num),
      eQ 6 7 (sq (-lg q) - 44) (by norm_num) (by norm_num) (by norm_num)]
    rfl

/- ### Claim theorems -/

/-- C6: `evaluate_polynomial` in the generated kernel equals the Horner
reference definition of the spec: for every coefficient array `c`, point
`x` and count `n >= 1` (the array holding at least `n` coefficients), it
returns `((...(c[n-1]*x + c[n-2])*x + ...)*x + c[0])`, the fold from the
highest index down to 0 seeded with the highest-degree coefficient. -/
theorem evaluate_polynomial_matches_horner_ref (c : List ℚ) (x : ℚ) (n : ℕ)
    (h1 : 1 ≤ n) (h2 : n ≤ c.length) :
    evaluate_polynomial c x n = some (hornerSpec c x n) :=
  evalPoly_eq_hornerSpec c x n h1 h2

theorem evaluate_polynomial_matches_horner_ref_witness :
    evaluate_polynomial [5, 7, 11] 2 3 = some (hornerSpec [5, 7, 11] 2 3) :=
  evaluate_polynomial_matches_horner_ref [5, 7, 11] 2 3 (by norm_num)
    (by norm_num)

/-- C5: at each of the 14 polynomial-evaluation call sites of the
generated kernel, the count passed for the selected coefficient row of
`ErfinvConstant` equals the exact non-zero-padded length of that row:
entries at indices `>= count` are all zero and entry `count - 1` is
non-zero. -/
theorem erfinv_table_row_padding :
    rowOk (erfinvTable.P.getD 0 []) 8 ∧ rowOk (erfinvTable.Q.getD 0 []) 10 ∧
    rowOk (erfinvTable.P.getD 1 []) 9 ∧ rowOk (erfinvTable.Q.getD 1 []) 9 ∧
    rowOk (erfinvTable.P.getD 2 []) 11 ∧ rowOk (erfinvTable.Q.getD 2 []) 8 ∧
    rowOk (erfinvTable.P.getD 3 []) 9 ∧ rowOk (erfinvTable.Q.getD 3 []) 7 ∧
    rowOk (erfinvTable.P.getD 4 []) 9 ∧ rowOk (erfinvTable.Q.getD 4 []) 7 ∧
    rowOk (erfinvTable.P.getD 5 []) 8 ∧ rowOk (erfinvTable.Q.getD 5 []) 7 ∧
    rowOk (erfinvTable.P.getD 6 []) 8 ∧ rowOk (erfinvTable.Q.getD 6 []) 7 :=
  ⟨⟨rfl, rfl, (by norm_num : (-0.00538772965071242932965 : ℚ) ≠ 0)⟩,
   ⟨rfl, rfl, (by norm_num : (0.000886216390456424707504 : ℚ) ≠ 0)⟩,
   ⟨rfl, rfl, (by norm_num : (-3.67192254707729348546 : ℚ) ≠ 0)⟩,
   ⟨rfl, rfl, (by norm_num : (1.72114765761200282724 : ℚ) ≠ 0)⟩,
   ⟨rfl, rfl, (by norm_num : (-0.681149956853776992068e-9 : ℚ) ≠ 0)⟩,
   ⟨rfl, rfl, (by norm_num : (0.01105924229346489121 : ℚ) ≠ 0)⟩,
   ⟨rfl, rfl, (by norm_num : (0.266339227425782031962e-11 : ℚ) ≠ 0)⟩,
   ⟨rfl, rfl, (by norm_num : (0.764675292302794483503e-4 : ℚ) ≠ 0)⟩,
   ⟨rfl, rfl, (by norm_num : (0.99055709973310326855e-16 : ℚ) ≠ 0)⟩,
   ⟨rfl, rfl, (by norm_num : (0.282243172016108031869e-6 : ℚ) ≠ 0)⟩,
   ⟨rfl, rfl, (by norm_num : (-0.116765012397184275695e-17 : ℚ) ≠ 0)⟩,
   ⟨rfl, rfl, (by norm_num : (0.509761276599778486139e-9 : ℚ) ≠ 0)⟩,
   ⟨rfl, rfl, (by norm_num : (-0.348890393399948882918e-21 : ℚ) ≠ 0)⟩,
   ⟨rfl, rfl, (by norm_num : (0.231558608310259605225e-11 : ℚ) ≠ 0)⟩⟩

/-- C10: every coefficient-array access is in bounds:
`evaluate_polynomial` succeeds exactly when `1 <= count <= length`
(it reads `coefficients[count-1]` first, then `count-2` down to `0`), and
since every call site of the kernel passes a count between 7 and 11
against an 11-element row, the kernel never performs an out-of-bounds
read on any path. -/
theorem erfinv_polynomial_index_safety (sq lg : ℚ → ℚ)
    (tbl : ErfinvConstant) (y : F)
    (hp7 : tbl.P.length = 7) (hq7 : tbl.Q.length = 7)
    (hpr : ∀ r ∈ tbl.P, r.length = 11) (hqr : ∀ r ∈ tbl.Q, r.length = 11) :
    (∀ (c : List ℚ) (x : ℚ) (n : ℕ),
      (evaluate_polynomial c x n).isSome = true ↔ 1 ≤ n ∧ n ≤ c.length) ∧
    (erfinv_mps_kernel sq lg tbl y).isSome = true := by
  refine ⟨evalPoly_isSome_iff, ?_⟩
  unfold erfinv_mps_kernel
  dsimp only
  split_ifs <;> try rfl
  all_goals rw [erfinvRegions_eq sq lg tbl hp7 hq7 hpr hqr]
  all_goals rfl

theorem erfinv_polynomial_index_safety_witness :
    (erfinv_mps_kernel id id erfinvTable ⟨false, 0.5⟩).isSome = true :=
  (erfinv_polynomial_index_safety id id erfinvTable ⟨false, 0.5⟩ rfl rfl
    (by decide) (by decide)).2

/-- C3: edge cases are signalled only through the numeric result:
`|y| > 1` yields NaN (no error value beyond the element itself),
`|y| == 1` yields infinity with the sign of `y`, and a zero input yields
a zero carrying the sign bit of `y` (so `erfinv(-0) = -0`). -/
theorem erfinv_edge_signaling (sq lg : ℚ → ℚ) (tbl : ErfinvConstant)
    (y : F) (h0 : 0 ≤ y.mag) :
    (1 < y.mag → erfinv_mps_kernel sq lg tbl y = some .nan) ∧
    (y.mag = 1 → erfinv_mps_kernel sq lg tbl y = some (.inf y.neg)) ∧
    (y.mag = 0 → erfinv_mps_kernel sq lg tbl y = some (.zero y.neg)) := by
  have habs : |fval y| = y.mag := abs_fval y h0
  unfold erfinv_mps_kernel
  dsimp only
  rw [habs]
  refine ⟨fun hgt => ?_, fun he1 => ?_, fun hz => ?_⟩
  · rw [if_pos hgt]
  · rw [if_neg (by rw [he1]; exact lt_irrefl 1), if_pos he1]
  · rw [if_neg (by rw [hz]; norm_num), if_neg (by rw [hz]; norm_num),
      if_pos hz]

theorem erfinv_edge_signaling_witness :
    erfinv_mps_kernel id id erfinvTable ⟨true, 2⟩ = some .nan :=
  (erfinv_edge_signaling id id erfinvTable ⟨true, 2⟩ (by norm_num)).1
    (by norm_num)

/-- C7: the precise evaluator is odd exactly: negating the input (a sign
bit flip) negates the result, including the signed-zero and
signed-infinity boundary cases; the magnitude path is identical and only
the sign factor flips. -/
theorem erfinv_precise_odd (sq lg : ℚ → ℚ) (tbl : ErfinvConstant) (y : F)
    (h0 : 0 ≤ y.mag) (h1 : y.mag ≤ 1) :
    erfinv_mps_kernel sq lg tbl (negF y) =
      (erfinv_mps_kernel sq lg tbl y).map negFV := by
  have habs : |fval y| = y.mag := abs_fval y h0
  have habs2 : |fval (negF y)| = y.mag := by rw [fval_negF, abs_neg, habs]
  unfold erfinv_mps_kernel
  dsimp only
  rw [habs, habs2, fval_negF]
  by_cases hgt : 1 < y.mag
  · rw [if_pos hgt, if_pos hgt]; rfl
  · rw [if_neg hgt, if_neg hgt]
    by_cases he1 : y.mag = 1
    · rw [if_pos he1, if_pos he1]
      rcases y with ⟨n, m⟩
      cases n <;> simp [negF, negFV]
    · rw [if_neg he1, if_neg he1]
      by_cases hz : y.mag = 0
      · rw [if_pos hz, if_pos hz]
        rcases y with ⟨n, m⟩
        cases n <;> simp [negF, negFV]
      · rw [if_neg hz, if_neg hz]
        have hy : fval y < 0 ∨ 0 < fval y := by
          rcases lt_trichotomy (fval y) 0 with hc | hc | hc
          · exact Or.inl hc
          · exact absurd (by rw [← habs, hc, abs_zero]) (Ne.symm hz)
          · exact Or.inr hc
        rcases hy with hneg | hpos
        · have hc : ¬(-fval y < 0) :=
            not_lt.mpr (le_of_lt (neg_pos.mpr hneg))
          rw [if_neg hc, if_neg hc, if_pos hneg, if_pos hneg]
          cases hr : erfinvRegions sq lg tbl (-fval y) (1 - -fval y) <;>
            simp [hr, negFV]
        · have hc : ¬(fval y < 0) := not_lt.mpr (le_of_lt hpos)
          have hc2 : -fval y < 0 := neg_lt_zero.mpr hpos
          rw [if_pos hc2, if_pos hc2, if_neg hc, if_neg hc, neg_neg]
          cases hr : erfinvRegions sq lg tbl (fval y) (1 - fval y) <;>
            simp [hr, negFV]

theorem erfinv_precise_odd_witness :
    erfinv_mps_kernel id id erfinvTable (negF ⟨false, 0.5⟩) =
      (erfinv_mps_kernel id id erfinvTable ⟨false, 0.5⟩).map negFV :=
  erfinv_precise_odd id id erfinvTable ⟨false, 0.5⟩ (by norm_num)
    (by norm_num)

/-- C2: for `0 < |y| < 1` the generated kernel computes exactly the
piecewise reference definition of the spec (region selection by
`p <= 0.5`, `q >= 0.25`, then thresholds on `x = sqrt(-ln q)` with
recentering offsets 1.125, 3, 6, 18, 44, rows 2..6 and
numerator/denominator counts 11/8, 9/7, 9/7, 8/7, 8/7, the result scaled
by the sign `s` of `y`). -/
theorem erfinv_precise_matches_spec_ref (sq lg : ℚ → ℚ)
    (tbl : ErfinvConstant) (y : F)
    (hp7 : tbl.P.length = 7) (hq7 : tbl.Q.length = 7)
    (hpr : ∀ r ∈ tbl.P, r.length = 11) (hqr : ∀ r ∈ tbl.Q, r.length = 11)
    (h0 : 0 < y.mag) (h1 : y.mag < 1) :
    erfinv_mps_kernel sq lg tbl y =
      some (.num (erfinvRefCompute sq lg tbl (fval y))) := by
  have habs : |fval y| = y.mag := abs_fval y (le_of_lt h0)
  have hrefs : erfinvRefCompute sq lg tbl (fval y) =
      (if fval y < 0 then (-1 : ℚ) else 1) *
        erfinvRegionsRef sq lg tbl |fval y| (1 - |fval y|) := by
    unfold erfinvRefCompute erfinvRegionsRef
    dsimp only
    split_ifs <;> ring
  unfold erfinv_mps_kernel
  dsimp only
  rw [habs]
  rw [if_neg (not_lt.mpr (le_of_lt h1)), if_neg (ne_of_lt h1),
    if_neg (Ne.symm (ne_of_lt h0))]
  have hp : (if fval y < 0 then -fval y else fval y) = |fval y| := by
    by_cases hlt : fval y < 0
    · rw [if_pos hlt, abs_of_neg hlt]
    · rw [if_neg hlt, abs_of_nonneg (not_lt.mp hlt)]
  rw [hp, erfinvRegions_eq sq lg tbl hp7 hq7 hpr hqr, hrefs]
  rfl

theorem erfinv_precise_matches_spec_ref_witness :
    erfinv_mps_kernel id id erfinvTable ⟨false, 0.5⟩ =
      some (.num (erfinvRefCompute id id erfinvTable (fval ⟨false, 0.5⟩))) :=
  erfinv_precise_matches_spec_ref id id erfinvTable ⟨false, 0.5⟩ rfl rfl
    (by decide) (by decide) (by norm_num) (by norm_num)

theorem erfinv_kernel_nan (sq lg : ℚ → ℚ) (tbl : ErfinvConstant) (y : F)
    (h0 : 0 ≤ y.mag) (hgt : 1 < y.mag) :
    erfinv_mps_kernel sq lg tbl y = some .nan := by
  unfold erfinv_mps_kernel
  dsimp only
  rw [abs_fval y h0, if_pos hgt]

theorem erfinv_kernel_inf (sq lg : ℚ → ℚ) (tbl : ErfinvConstant) (y : F)
    (h0 : 0 ≤ y.mag) (he1 : y.mag = 1) :
    erfinv_mps_kernel sq lg tbl y = some (.inf y.neg) := by
  unfold erfinv_mps_kernel
  dsimp only
  rw [abs_fval y h0, if_neg (by rw [he1]; exact lt_irrefl 1), if_pos he1]

theorem erfinv_kernel_zero (sq lg : ℚ → ℚ) (tbl : ErfinvConstant) (y : F)
    (h0 : 0 ≤ y.mag) (hz : y.mag = 0) :
    erfinv_mps_kernel sq lg tbl y = some (.zero y.neg) := by
  unfold erfinv_mps_kernel
  dsimp only
  rw [abs_fval y h0, if_neg (by rw [hz]; norm_num),
    if_neg (by rw [hz]; norm_num), if_pos hz]

theorem erfinv_kernel_num (sq lg : ℚ → ℚ) (tbl : ErfinvConstant) (y : F)
    (hp7 : tbl.P.length = 7) (hq7 : tbl.Q.length = 7)
    (hpr : ∀ r ∈ tbl.P, r.length = 11) (hqr : ∀ r ∈ tbl.Q, r.length = 11)
    (h0 : 0 < y.mag) (h1 : y.mag < 1) :
    erfinv_mps_kernel sq lg tbl y =
      some (.num ((if fval y < 0 then (-1 : ℚ) else 1) *
        erfinvRegionsRef sq lg tbl y.mag (1 - y.mag))) := by
  unfold erfinv_mps_kernel
  dsimp only
  rw [abs_fval y (le_of_lt h0)]
  rw [if_neg (not_lt.mpr (le_of_lt h1)), if_neg (ne_of_lt h1),
    if_neg (Ne.symm (ne_of_lt h0))]
  have hp : (if fval y < 0 then -fval y else fval y) = y.mag := by
    refine Eq.trans ?_ (abs_fval y (le_of_lt h0))
    by_cases hlt : fval y < 0
    · rw [if_pos hlt, abs_of_neg hlt]
    · rw [if_neg hlt, abs_of_nonneg (not_lt.mp hlt)]
  rw [hp, erfinvRegions_eq sq lg tbl hp7 hq7 hpr hqr]
  rfl

/-- C4: the two coefficient-table/kernel pairs — the spec-modelled
fast/simple 4-region scheme over its own `a`/`b`/`c`/`d` table and the
precise 7-region scheme over `ErfinvConstant` — agree in contract: the
same NaN and signed-infinity edge behaviour, a zero result at zero input,
and finite numeric values everywhere on the open interval `(-1, 1)`
(where they differ only numerically). -/
theorem erfinv_schemes_contract_equivalent (sq lg : ℚ → ℚ)
    (ts : ErfinvSimpleConstant) (y : F) (h0 : 0 ≤ y.mag) :
    (1 < y.mag → erfinv_simple_kernel sq lg ts y = .nan ∧
      erfinv_mps_kernel sq lg erfinvTable y = some .nan) ∧
    (y.mag = 1 → erfinv_simple_kernel sq lg ts y = .inf y.neg ∧
      erfinv_mps_kernel sq lg erfinvTable y = some (.inf y.neg)) ∧
    (y.mag = 0 → (erfinv_simple_kernel sq lg ts y).isZeroVal ∧
      ∃ v, erfinv_mps_kernel sq lg erfinvTable y = some v ∧ v.isZeroVal) ∧
    (0 < y.mag → y.mag < 1 →
      (erfinv_simple_kernel sq lg ts y).isFiniteVal ∧
      ∃ v, erfinv_mps_kernel sq lg erfinvTable y = some v ∧
        v.isFiniteVal) := by
  refine ⟨fun hgt => ⟨?_, erfinv_kernel_nan sq lg erfinvTable y h0 hgt⟩,
    fun he1 => ⟨?_, erfinv_kernel_inf sq lg erfinvTable y h0 he1⟩,
    fun hz => ⟨?_, .zero y.neg,
      erfinv_kernel_zero sq lg erfinvTable y h0 hz, trivial⟩,
    fun hlt hgt1 => ⟨?_, ?_⟩⟩
  · unfold erfinv_simple_kernel
    dsimp only
    rw [abs_fval y h0, if_pos hgt]
  · unfold erfinv_simple_kernel
    dsimp only
    rw [abs_fval y h0, if_neg (by rw [he1]; exact lt_irrefl 1), if_pos he1]
  · unfold erfinv_simple_kernel
    dsimp only
    rw [abs_fval y h0, if_neg (by rw [hz]; norm_num),
      if_neg (by rw [hz]; norm_num), if_pos (by rw [hz]; norm_num)]
    have hfz : fval y = 0 := abs_eq_zero.mp (by rw [abs_fval y h0, hz])
    simp [FV.isZeroVal, hfz]
  · unfold erfinv_simple_kernel
    dsimp only
    rw [abs_fval y h0, if_neg (not_lt.mpr (le_of_lt hgt1)),
      if_neg (ne_of_lt hgt1)]
    by_cases h07 : y.mag ≤ 0.7
    · rw [if_pos h07]; exact trivial
    · rw [if_neg h07]; exact trivial
  · exact ⟨.num ((if fval y < 0 then (-1 : ℚ) else 1) *
      erfinvRegionsRef sq lg erfinvTable y.mag (1 - y.mag)),
      erfinv_kernel_num sq lg erfinvTable y rfl rfl (by decide) (by decide)
        hlt hgt1, trivial⟩

theorem erfinv_schemes_contract_equivalent_witness :
    erfinv_simple_kernel id id ⟨fun _ => 0, fun _ => 0, fun _ => 0, fun _ => 0⟩
        ⟨true, 1⟩ = .inf true ∧
    erfinv_mps_kernel id id erfinvTable ⟨true, 1⟩ = some (.inf true) :=
  (erfinv_schemes_contract_equivalent id id
    ⟨fun _ => 0, fun _ => 0, fun _ => 0, fun _ => 0⟩ ⟨true, 1⟩
    (by norm_num)).2.1 (by norm_num)

/-- C1 (counterexample): `scale` and `input_scale` are not received by the
`qelu_stub` invocation: at a concrete heap and kernel, changing them from
`(2, 3)` to `(5, 7)` leaves every entry point call — heap, returned
handle, and the recorded stub invocation — bit-for-bit identical, so the
stub invocation cannot depend on (and does not receive) them. -/
theorem quantized_elu_scale_args_counterexample :
    ((2 : ℚ) ≠ 5 ∧ (3 : ℚ) ≠ 7) ∧
    quantized_elu (fun t _ => t.data) [default] 0 1 2 3 =
      quantized_elu (fun t _ => t.data) [default] 0 1 5 7 ∧
    quantized_elu_ (fun t _ => t.data) [default] 0 1 2 3 =
      quantized_elu_ (fun t _ => t.data) [default] 0 1 5 7 ∧
    quantized_elu_out (fun t _ => t.data) [default, default] 1 0 1 2 3 =
      quantized_elu_out (fun t _ => t.data) [default, default] 1 0 1 5 7 :=
  ⟨⟨by norm_num, by norm_num⟩, rfl, rfl, rfl⟩

/-- C1 (amended): every entry point passes `alpha` through to the
`qelu_stub` invocation (the recorded stub event carries `alpha`), while
`scale` and `input_scale` are accepted but not forwarded: the entire
observable behaviour is invariant under changing them. -/
theorem quantized_elu_alpha_only_passthrough (k : QKernel) (h : Heap)
    (resultId selfId qxId : ℕ) (alpha sc1 is1 sc2 is2 : ℚ) :
    quantized_elu k h qxId alpha sc1 is1 =
      quantized_elu k h qxId alpha sc2 is2 ∧
    quantized_elu_ k h selfId alpha sc1 is1 =
      quantized_elu_ k h selfId alpha sc2 is2 ∧
    quantized_elu_out k h resultId selfId alpha sc1 is1 =
      quantized_elu_out k h resultId selfId alpha sc2 is2 ∧
    QEvent.stubEvent (h.getD qxId default).device qxId alpha h.length ∈
      (quantized_elu k h qxId alpha sc1 is1).2.2 ∧
    QEvent.stubEvent (h.getD selfId default).device selfId alpha h.length ∈
      (quantized_elu_ k h selfId alpha sc1 is1).2.2 ∧
    QEvent.stubEvent (h.getD selfId default).device selfId alpha resultId ∈
      (quantized_elu_out k h resultId selfId alpha sc1 is1).2.2 :=
  ⟨rfl, rfl, rfl,
   by simp [quantized_elu, _empty_affine_quantized],
   by simp [quantized_elu_, _empty_affine_quantized],
   by simp [quantized_elu_out]⟩

/-- C8: the out-of-place entry point allocates a fresh tensor (its handle
is the first one outside the old heap) carrying the sizes, options, scale
and zero-point of the input, the stub fills it from the input and
`alpha`, the input tensor is unmodified, and the recorded events are one
allocation followed by one stub invocation. -/
theorem quantized_elu_out_of_place_contract (k : QKernel) (h : Heap)
    (qxId : ℕ) (alpha scale input_scale : ℚ) (hv : qxId < h.length) :
    (quantized_elu k h qxId alpha scale input_scale).2.1 = h.length ∧
    ((quantized_elu k h qxId alpha scale input_scale).1.getD h.length
        default).sizes = (h.getD qxId default).sizes ∧
    ((quantized_elu k h qxId alpha scale input_scale).1.getD h.length
        default).options = (h.getD qxId default).options ∧
    ((quantized_elu k h qxId alpha scale input_scale).1.getD h.length
        default).q_scale = (h.getD qxId default).q_scale ∧
    ((quantized_elu k h qxId alpha scale input_scale).1.getD h.length
        default).q_zero_point = (h.getD qxId default).q_zero_point ∧
    ((quantized_elu k h qxId alpha scale input_scale).1.getD h.length
        default).data = k (h.getD qxId default) alpha ∧
    (quantized_elu k h qxId alpha scale input_scale).1.getD qxId default =
      h.getD qxId default ∧
    (quantized_elu k h qxId alpha scale input_scale).2.2 =
      [.allocEvent h.length,
       .stubEvent (h.getD qxId default).device qxId alpha h.length] := by
  have hne : h.length ≠ qxId := (Nat.ne_of_lt hv).symm
  refine ⟨rfl, ?_, ?_, ?_, ?_, ?_, ?_, rfl⟩ <;>
    simp only [quantized_elu, _empty_affine_quantized, qelu_stub]
  any_goals
    rw [getD_set_self _ _ _ _ (by simp), getD_concat_self,
      List.getD_append h _ default qxId hv]
  rw [getD_set_ne _ _ _ _ _ hne, List.getD_append h _ default qxId hv]

theorem quantized_elu_out_of_place_contract_witness :
    (quantized_elu (fun t _ => t.data) [default] 0 1 2 3).2.1 = 1 :=
  (quantized_elu_out_of_place_contract (fun t _ => t.data) [default] 0 1 2 3
    (by norm_num)).1

/-- C9: the in-place entry point decomposes into exactly three ordered
phases — allocate a temporary carrying the current scale/zero-point of
the input, have the stub write into that temporary (a handle distinct
from the input, so the kernel never reads and writes the same buffer),
then copy the temporary back into the input storage — and it returns the
handle it was given; before the copy-back the input (scale, zero-point
and buffer) is untouched, and afterwards the input holds the kernel
output while keeping its scale, zero-point and sizes. -/
theorem quantized_elu_inplace_contract (k : QKernel) (h : Heap)
    (selfId : ℕ) (alpha scale input_scale : ℚ) (hv : selfId < h.length) :
    (let s0 := h.getD selfId default
     let mid := qelu_stub k
       (_empty_affine_quantized h s0.sizes s0.options s0.device
         s0.q_scale s0.q_zero_point).1 selfId alpha h.length
     quantized_elu_ k h selfId alpha scale input_scale =
       (copy_into mid selfId h.length, selfId,
        [.allocEvent h.length,
         .stubEvent s0.device selfId alpha h.length,
         .copyEvent selfId h.length]) ∧
     h.length ≠ selfId ∧
     mid.getD selfId default = s0 ∧
     (mid.getD h.length default).q_scale = s0.q_scale ∧
     (mid.getD h.length default).q_zero_point = s0.q_zero_point ∧
     (mid.getD h.length default).data = k s0 alpha ∧
     (quantized_elu_ k h selfId alpha scale input_scale).2.1 = selfId ∧
     ((quantized_elu_ k h selfId alpha scale input_scale).1.getD selfId
        default).data = k s0 alpha ∧
     ((quantized_elu_ k h selfId alpha scale input_scale).1.getD selfId
        default).q_scale = s0.q_scale ∧
     ((quantized_elu_ k h selfId alpha scale input_scale).1.getD selfId
        default).q_zero_point = s0.q_zero_point ∧
     ((quantized_elu_ k h selfId alpha scale input_scale).1.getD selfId
        default).sizes = s0.sizes) := by
  have hne : h.length ≠ selfId := (Nat.ne_of_lt hv).symm
  dsimp only
  refine ⟨rfl, hne, ?_, ?_, ?_, ?_, rfl, ?_, ?_, ?_, ?_⟩
  · simp only [qelu_stub, _empty_affine_quantized]
    rw [getD_set_ne _ _ _ _ _ hne, List.getD_append h _ default selfId hv]
  · simp only [qelu_stub, _empty_affine_quantized]
    rw [getD_set_self _ _ _ _ (by simp), getD_concat_self]
  · simp only [qelu_stub, _empty_affine_quantized]
    rw [getD_set_self _ _ _ _ (by simp), getD_concat_self]
  · simp only [qelu_stub, _empty_affine_quantized]
    rw [getD_set_self _ _ _ _ (by simp), getD_concat_self,
      List.getD_append h _ default selfId hv]
  · simp only [quantized_elu_, copy_into, qelu_stub, _empty_affine_quantized]
    rw [getD_set_self _ _ _ _ (by simp; omega),
      getD_set_self _ _ _ _ (by simp), getD_concat_self,
      List.getD_append h _ default selfId hv]
  · simp only [quantized_elu_, copy_into, qelu_stub, _empty_affine_quantized]
    rw [getD_set_self _ _ _ _ (by simp; omega),
      getD_set_ne _ _ _ _ _ hne, List.getD_append h _ default selfId hv]
  · simp only [quantized_elu_, copy_into, qelu_stub, _empty_affine_quantized]
    rw [getD_set_self _ _ _ _ (by simp; omega),
      getD_set_ne _ _ _ _ _ hne, List.getD_append h _ default selfId hv]
  · simp only [quantized_elu_, copy_into, qelu_stub, _empty_affine_quantized]
    rw [getD_set_self _ _ _ _ (by simp; omega),
      getD_set_ne _ _ _ _ _ hne, List.getD_append h _ default selfId hv]

theorem quantized_elu_inplace_contract_witness :
    (quantized_elu_ (fun t _ => t.data) [default] 0 1 2 3).2.1 = 0 :=
  (quantized_elu_inplace_contract (fun t _ => t.data) [default] 0 1 2 3
    (by norm_num)).2.2.2.2.2.2.1
